import Mathlib

/-!
Shallow embedding of `src/protocol.rs` from the multi-paxos-rs repository.

Conventions:
* `usize` is modelled as `Nat`.
* `Instant` / elapsed time: `leader_lease_start` is a `Nat` timestamp (seconds);
  handlers that read the clock take an extra argument `now : Nat`, and
  `elapsed = now - leader_lease_start` (truncated `Nat` subtraction).
* Network effects are collected in an output list (`Out`); `send`/`broadcast`
  do not mutate protocol state.
* A Rust panic (out-of-bounds index or `Option::unwrap` on `None`) is modelled
  as the handler returning `none`; a normal return is `some (state, outputs)`.
* The transport's `send(..) -> bool` result is an input (`sendOk`) to the one
  handler that inspects it (`handle_client_request`).
-/

/-- Rust `Ballot(usize, usize)`: field 0 is the round, field 1 the node id.
Rust derives `Ord`, which on a tuple struct is lexicographic. -/
structure Ballot where
  round : Nat
  node : Nat
deriving DecidableEq, Repr

/-- Lexicographic strict order on ballots (Rust's derived `<`). -/
def Ballot.lt (a b : Ballot) : Prop :=
  a.round < b.round ∨ (a.round = b.round ∧ a.node < b.node)

/-- Lexicographic order on ballots (Rust's derived `<=`). -/
def Ballot.le (a b : Ballot) : Prop :=
  a.round < b.round ∨ (a.round = b.round ∧ a.node ≤ b.node)

instance (a b : Ballot) : Decidable (Ballot.lt a b) := by
  unfold Ballot.lt; infer_instance

instance (a b : Ballot) : Decidable (Ballot.le a b) := by
  unfold Ballot.le; infer_instance

/-- Rust `Ballot::increment_for`: `if self.1 > node_id { self.0 += 1; } self.1 = node_id;` -/
def Ballot.increment_for (b : Ballot) (node_id : Nat) : Ballot :=
  if node_id < b.node then { round := b.round + 1, node := node_id }
  else { round := b.round, node := node_id }

/-- Rust `static LEASE_DURATION: u64 = 2;` -/
def LEASE_DURATION : Nat := 2

/-- Rust `LogEntry<V>`: state of a single slot of the log. -/
structure LogEntry (V : Type) where
  value : Option V
  acceptances : Nat
  accepted_id : Ballot
  chosen : Bool
deriving DecidableEq, Repr

/-- Rust `LogEntry::new` (also the `Default` used when growing the log). -/
def LogEntry.new {V : Type} : LogEntry V :=
  { value := none, acceptances := 0, accepted_id := ⟨0, 0⟩, chosen := false }

/-- Rust `LogEntry::new_with_value`. -/
def LogEntry.new_with_value {V : Type} (value : V) : LogEntry V :=
  { value := some value, acceptances := 1, accepted_id := ⟨0, 0⟩, chosen := false }

/-- Rust `PaxosMsg<V>`: the seven protocol messages. -/
inductive Msg (V : Type) where
  | prepare (id : Ballot) (holes : List Nat)
  | promise (id : Ballot) (accepted : List (Nat × Ballot × V))
  | propose (id : Ballot) (inst : Nat) (value : V)
  | accept (id : Ballot) (inst : Nat)
  | learn (id : Ballot) (inst : Nat) (value : V)
  | nack (id : Ballot) (inst : Nat)
  | clientRequest (value : V)
deriving DecidableEq, Repr

/-- A network side effect: `node.send(dst, m)` or `node.broadcast(m)`. -/
inductive Out (V : Type) where
  | send (dst : Nat) (m : Msg V)
  | broadcast (m : Msg V)
deriving DecidableEq, Repr

/-- Rust `PaxosServer<V>` minus the transport handle (network effects are outputs). -/
structure PaxosServer (V : Type) where
  node_id : Nat
  client_cmd_queue : List V
  log : List (LogEntry V)
  quorum : Nat
  current_leader : Nat
  leader_lease_start : Nat
  highest_promised : Ballot
  promises : List (Ballot × List (Nat × Ballot × V))
deriving DecidableEq, Repr

/-- Replace the element at index `i` by `f` of it; out of range is a no-op.
Models in-place mutation `self.log[i].field = ...` of an in-range index. -/
def listModify {α : Type} (f : α → α) : Nat → List α → List α
  | _, [] => []
  | 0, a :: t => f a :: t
  | n + 1, a :: t => a :: listModify f n t

/-- Rust `while instance >= self.log.len() { self.log.push(LogEntry::new()); }` -/
def growTo {V : Type} (log : List (LogEntry V)) (inst : Nat) : List (LogEntry V) :=
  log ++ List.replicate (inst + 1 - log.length) LogEntry.new

/-- Rust `PaxosServer::get_accepted_values_iter`: the `(index, accepted_id, value)`
triples of the slots whose `value` is present, in index order. -/
def get_accepted_values {V : Type} (log : List (LogEntry V)) : List (Nat × Ballot × V) :=
  log.enum.filterMap (fun p =>
    match p.2.value with
    | some v => some (p.1, p.2.accepted_id, v)
    | none => none)

/-- How many times the inner loop of `handle_prepare` pushes the triple of slot
`index`, iterating over `holes.iter().chain(tailStart..)`. The infinite tail
emits the consecutive integers `tailStart, tailStart+1, ...`, so once `holes`
is exhausted without a break the loop pushes exactly once iff
`tailStart ≤ index` (it skips values `< index`, pushes at `index`, and breaks
at `index + 1`). `index < hole` breaks, `hole < index` continues, equality
pushes and continues. -/
def chainPushCount (index : Nat) (holes : List Nat) (tailStart : Nat) : Nat :=
  match holes with
  | [] => if tailStart ≤ index then 1 else 0
  | h :: t =>
    if index < h then 0
    else if h < index then chainPushCount index t tailStart
    else 1 + chainPushCount index t tailStart

/-- Rust `PaxosServer::handle_prepare`. `now` is the reading of the clock; the Rust
`holes.last().unwrap()` panic (empty `holes` with a nonempty accepted-values
iterator) is `none`. -/
def handle_prepare {V : Type} (s : PaxosServer V) (now src : Nat) (id : Ballot)
    (holes : List Nat) : Option (PaxosServer V × List (Out V)) :=
  if Ballot.lt id s.highest_promised then some (s, [])
  else if now - s.leader_lease_start < LEASE_DURATION ∧ src ≠ s.current_leader then
    some (s, [])
  else
    let s' := { s with highest_promised := id, current_leader := src,
                       leader_lease_start := now }
    match holes.getLast? with
    | none =>
      if (get_accepted_values s.log).isEmpty then
        some (s', [Out.send src (Msg.promise id [])])
      else none
    | some last =>
      let accepted := (get_accepted_values s.log).flatMap
        (fun t => List.replicate (chainPushCount t.1 holes (last + 1)) t)
      some (s', [Out.send src (Msg.promise id accepted)])

/-- The broadcast loop of `handle_promise` at quorum: one `Propose` per
not-chosen slot, with `instance.value.as_ref().unwrap()`; `none` is the
unwrap panic on a valueless slot. -/
def proposeUnchosen {V : Type} (id : Ballot) :
    List (Nat × LogEntry V) → Option (List (Out V))
  | [] => some []
  | p :: rest =>
    match p.2.value with
    | none => none
    | some v =>
      (proposeUnchosen id rest).map
        (fun l => Out.broadcast (Msg.propose id p.1 v) :: l)

/-- Rust `PaxosServer::handle_promise`. -/
def handle_promise {V : Type} (s : PaxosServer V) (now : Nat) (id : Ballot)
    (accepted : List (Nat × Ballot × V)) : Option (PaxosServer V × List (Out V)) :=
  if id ≠ s.highest_promised then some (s, [])
  else
    let s1 := { s with promises := s.promises ++ [(id, accepted)] }
    if s1.promises.length = s.quorum then
      let s2 := { s1 with current_leader := s.node_id, leader_lease_start := now }
      match proposeUnchosen id (s.log.enum.filter (fun p => !p.2.chosen)) with
      | none => none
      | some outs => some (s2, outs)
    else some (s1, [])

/-- Rust `PaxosServer::handle_propose`. -/
def handle_propose {V : Type} (s : PaxosServer V) (src : Nat) (id : Ballot)
    (inst : Nat) (value : V) : Option (PaxosServer V × List (Out V)) :=
  if Ballot.lt id s.highest_promised then
    some (s, [Out.send src (Msg.nack id inst)])
  else
    let log1 := growTo s.log inst
    let log2 := listModify
      (fun e => { e with value := some value, accepted_id := id }) inst log1
    some ({ s with current_leader := src, log := log2 },
          [Out.send src (Msg.accept id inst)])

/-- Rust `PaxosServer::handle_accept`. `self.log[instance]` on an out-of-range
`instance` is the Rust index panic, hence `none`; likewise the
`value.clone().unwrap()` at quorum on a valueless slot. -/
def handle_accept {V : Type} (s : PaxosServer V) (id : Ballot) (inst : Nat) :
    Option (PaxosServer V × List (Out V)) :=
  if id ≠ s.highest_promised then some (s, [])
  else if h : inst < s.log.length then
    let e := s.log.get ⟨inst, h⟩
    let log1 := listModify (fun e => { e with acceptances := e.acceptances + 1 })
      inst s.log
    if e.acceptances + 1 = s.quorum then
      match e.value with
      | none => none
      | some v =>
        some ({ s with log := listModify (fun e => { e with chosen := true }) inst log1 },
              [Out.broadcast (Msg.learn id inst v)])
    else some ({ s with log := log1 }, [])
  else none

/-- Rust `PaxosServer::handle_learn`. -/
def handle_learn {V : Type} (s : PaxosServer V) (id : Ballot) (inst : Nat)
    (value : V) : Option (PaxosServer V × List (Out V)) :=
  let log1 := growTo s.log inst
  let log2 := listModify
    (fun e => { e with value := some value, accepted_id := id, chosen := true })
    inst log1
  some ({ s with log := log2 }, [])

/-- Rust `PaxosServer::handle_nack`: logging only, no state change. -/
def handle_nack {V : Type} (s : PaxosServer V) (_id : Ballot) (_inst : Nat) :
    Option (PaxosServer V × List (Out V)) :=
  some (s, [])

/-- Rust `PaxosServer::handle_client_request`. `sendOk` is the `bool` the transport
returns for the relay attempt (unused on the leader path). -/
def handle_client_request {V : Type} (s : PaxosServer V) (sendOk : Bool)
    (cmd : V) : Option (PaxosServer V × List (Out V)) :=
  if s.node_id = s.current_leader then
    let log1 := s.log ++ [LogEntry.new_with_value cmd]
    some ({ s with log := log1 },
          [Out.broadcast (Msg.propose s.highest_promised (log1.length - 1) cmd)])
  else
    if sendOk then
      some (s, [Out.send s.current_leader (Msg.clientRequest cmd)])
    else
      some ({ s with client_cmd_queue := s.client_cmd_queue ++ [cmd] },
            [Out.send s.current_leader (Msg.clientRequest cmd)])

/-- Rust `PaxosServer::start_election`. -/
def start_election {V : Type} (s : PaxosServer V) :
    Option (PaxosServer V × List (Out V)) :=
  let b := Ballot.increment_for s.highest_promised s.node_id
  let accepted := get_accepted_values s.log
  let holes := ((s.log.enum.filter (fun p => p.2.chosen = false)).map (·.1))
    ++ [s.log.length]
  some ({ s with highest_promised := b, promises := [(b, accepted)] },
        [Out.broadcast (Msg.prepare b holes)])

/-! ### Concrete test states used by counterexamples and witnesses -/

/-- A would-be leader one promise short of quorum, holding value 10 at slot 0. -/
def tcPromise : PaxosServer Nat :=
  { node_id := 0, client_cmd_queue := [],
    log := [{ value := some 10, acceptances := 1, accepted_id := ⟨0, 0⟩, chosen := false }],
    quorum := 2, current_leader := 0, leader_lease_start := 0,
    highest_promised := ⟨1, 0⟩, promises := [(⟨1, 0⟩, [])] }

/-- Same as `tcPromise` but the unchosen slot carries no value. -/
def tcPromiseHole : PaxosServer Nat :=
  { tcPromise with
    log := [{ value := none, acceptances := 0, accepted_id := ⟨0, 0⟩, chosen := false }] }

/-- A leader (quorum 3 of 5) whose slot 0 already counts its own acceptance. -/
def tcAccept : PaxosServer Nat :=
  { node_id := 0, client_cmd_queue := [],
    log := [{ value := some 7, acceptances := 1, accepted_id := ⟨1, 0⟩, chosen := false }],
    quorum := 3, current_leader := 0, leader_lease_start := 0,
    highest_promised := ⟨1, 0⟩, promises := [] }

/-- A replica with slot 0 already chosen with value 1. -/
def tcChosen : PaxosServer Nat :=
  { node_id := 0, client_cmd_queue := [],
    log := [{ value := some 1, acceptances := 0, accepted_id := ⟨2, 2⟩, chosen := true }],
    quorum := 2, current_leader := 0, leader_lease_start := 0,
    highest_promised := ⟨2, 2⟩, promises := [] }

/-- A leader with an empty log. -/
def tcEmptyLog : PaxosServer Nat :=
  { node_id := 0, client_cmd_queue := [], log := [], quorum := 2, current_leader := 0,
    leader_lease_start := 0, highest_promised := ⟨1, 1⟩, promises := [] }

/-- A non-leader replica with one queued client command. -/
def tcRelay : PaxosServer Nat :=
  { node_id := 1, client_cmd_queue := [5], log := [], quorum := 2, current_leader := 0,
    leader_lease_start := 0, highest_promised := ⟨0, 0⟩, promises := [] }

/-- An acceptor with a mixed log: chosen, empty, tentative and chosen slots. -/
def tcAcceptor : PaxosServer Nat :=
  { node_id := 2, client_cmd_queue := [],
    log := [{ value := some 4, acceptances := 0, accepted_id := ⟨1, 1⟩, chosen := true },
            { value := none, acceptances := 0, accepted_id := ⟨0, 0⟩, chosen := false },
            { value := some 6, acceptances := 0, accepted_id := ⟨1, 1⟩, chosen := false },
            { value := some 8, acceptances := 0, accepted_id := ⟨2, 1⟩, chosen := true }],
    quorum := 2, current_leader := 0, leader_lease_start := 0,
    highest_promised := ⟨1, 1⟩, promises := [] }

/-! ### Helper lemmas -/

theorem Ballot.le_refl (a : Ballot) : Ballot.le a a := by
  right; exact ⟨rfl, Nat.le_refl _⟩

theorem Ballot.le_of_not_lt {a b : Ballot} (h : ¬ Ballot.lt a b) : Ballot.le b a := by
  unfold Ballot.lt at h
  unfold Ballot.le
  omega

theorem Ballot.le_increment_for (b : Ballot) (n : Nat) :
    Ballot.le b (Ballot.increment_for b n) := by
  unfold Ballot.increment_for
  split
  · exact Or.inl (Nat.lt_succ_self _)
  · exact Or.inr ⟨rfl, Nat.le_of_not_lt (by assumption)⟩

theorem Ballot.lt_increment_for {b : Ballot} {n : Nat} (h : b.node ≠ n) :
    Ballot.lt b (Ballot.increment_for b n) := by
  unfold Ballot.increment_for
  split
  · exact Or.inl (Nat.lt_succ_self _)
  · exact Or.inr ⟨rfl, Nat.lt_of_le_of_ne (Nat.le_of_not_lt (by assumption)) h⟩

theorem listModify_length {α : Type} (f : α → α) (i : Nat) (l : List α) :
    (listModify f i l).length = l.length := by
  induction l generalizing i with
  | nil => cases i <;> rfl
  | cons a t ih =>
    cases i with
    | zero => rfl
    | succ n => simp [listModify, ih]

theorem listModify_get?_self {α : Type} (f : α → α) (i : Nat) (l : List α) :
    (listModify f i l).get? i = (l.get? i).map f := by
  induction l generalizing i with
  | nil => cases i <;> rfl
  | cons a t ih =>
    cases i with
    | zero => rfl
    | succ n => simpa [listModify] using ih n

theorem listModify_get?_ne {α : Type} (f : α → α) {i j : Nat} (l : List α)
    (h : j ≠ i) : (listModify f i l).get? j = l.get? j := by
  induction l generalizing i j with
  | nil => cases i <;> rfl
  | cons a t ih =>
    cases i with
    | zero =>
      cases j with
      | zero => exact absurd rfl h
      | succ m => rfl
    | succ n =>
      cases j with
      | zero => rfl
      | succ m => simpa [listModify] using ih (fun hc => h (by omega))

theorem growTo_length {V : Type} (log : List (LogEntry V)) (inst : Nat) :
    (growTo log inst).length = max (inst + 1) log.length := by
  simp only [growTo, List.length_append, List.length_replicate]
  omega

theorem growTo_get?_lt {V : Type} (log : List (LogEntry V)) (inst : Nat) {j : Nat}
    (h : j < log.length) : (growTo log inst).get? j = log.get? j :=
  List.get?_append h

theorem sorted_le_getLast {l : List Nat} (hs : List.Sorted (· < ·) l) (hne : l ≠ [])
    {x : Nat} (hx : x ∈ l) : x ≤ l.getLast hne := by
  induction l with
  | nil => exact absurd rfl hne
  | cons a t ih =>
    cases t with
    | nil =>
      simp only [List.mem_singleton] at hx
      simp [List.getLast, hx]
    | cons b u =>
      rw [List.getLast_cons (by simp)]
      rw [List.sorted_cons] at hs
      rcases List.mem_cons.mp hx with h1 | h1
      · subst h1
        have hmem : (b :: u).getLast (by simp) ∈ b :: u := List.getLast_mem _
        have := hs.1 _ hmem
        omega
      · exact ih hs.2 (by simp) h1

theorem chainPushCount_sorted {holes : List Nat} (hs : List.Sorted (· < ·) holes)
    {T : Nat} (hT : ∀ x ∈ holes, x < T) (i : Nat) :
    chainPushCount i holes T = if i ∈ holes ∨ T ≤ i then 1 else 0 := by
  induction holes with
  | nil => simp [chainPushCount]
  | cons h t ih =>
    rw [List.sorted_cons] at hs
    have ihh := ih hs.2 (fun x hx => hT x (List.mem_cons_of_mem _ hx))
    have hhT : h < T := hT h (List.mem_cons_self _ _)
    by_cases h1 : i < h
    · have hmem : i ∉ h :: t := by
        intro hm
        rcases List.mem_cons.mp hm with e | e
        · omega
        · have := hs.1 i e; omega
      simp only [chainPushCount, if_pos h1]
      rw [if_neg]
      push_neg
      exact ⟨hmem, by omega⟩
    · by_cases h2 : h < i
      · have hiff : (i ∈ h :: t ∨ T ≤ i) ↔ (i ∈ t ∨ T ≤ i) := by
          rw [List.mem_cons]
          constructor
          · rintro (⟨e | e⟩ | hTi)
            · omega
            · exact Or.inl e
            · exact Or.inr hTi
          · rintro (hm | hTi)
            · exact Or.inl (Or.inr hm)
            · exact Or.inr hTi
        simp only [chainPushCount, if_neg h1, if_pos h2, ihh]
        by_cases hc : i ∈ t ∨ T ≤ i
        · rw [if_pos hc, if_pos (hiff.mpr hc)]
        · rw [if_neg hc, if_neg (fun hx => hc (hiff.mp hx))]
      · have he : i = h := by omega
        subst he
        have ht0 : i ∉ t := fun hm => by have := hs.1 i hm; omega
        have hT0 : ¬ T ≤ i := by omega
        simp only [chainPushCount, if_neg h1, if_neg h2, ihh]
        rw [if_neg (by rintro (hm | hTi) <;> [exact ht0 hm; exact hT0 hTi])]
        rw [if_pos (Or.inl (List.mem_cons_self _ _))]

theorem flatMap_replicate_eq_filter {α : Type} (l : List α) (c : α → Nat) (p : α → Bool)
    (h : ∀ t ∈ l, c t = if p t then 1 else 0) :
    l.flatMap (fun t => List.replicate (c t) t) = l.filter p := by
  induction l with
  | nil => rfl
  | cons a t ih =>
    rw [List.flatMap_cons, List.filter_cons, h a (List.mem_cons_self _ _),
        ih (fun x hx => h x (List.mem_cons_of_mem _ hx))]
    by_cases hp : p a = true <;> simp [hp]

theorem growTo_get?_ge {V : Type} (log : List (LogEntry V)) (inst : Nat) {j : Nat}
    (h1 : log.length ≤ j) (h2 : j ≤ inst) :
    (growTo log inst).get? j = some (LogEntry.new (V := V)) := by
  have hj : j - log.length < inst + 1 - log.length := by omega
  rw [growTo]
  simp [List.get?_eq_getElem?, List.getElem?_append_right h1, List.getElem?_replicate, hj]

/-! ### Claim theorems -/

/-- C4 counterexample: the code's `increment_for` does **not** increment the
round when the stored node id equals the replica's own: `(5,3).increment_for(3)`
is `(5,3)`, not the `(6,3)` the claim states, and the result is not strictly
greater than the original ballot. -/
theorem C4_counterexample :
    Ballot.increment_for ⟨5, 3⟩ 3 = ⟨5, 3⟩ ∧
    Ballot.increment_for ⟨5, 3⟩ 3 ≠ ⟨6, 3⟩ ∧
    ¬ Ballot.lt ⟨5, 3⟩ (Ballot.increment_for ⟨5, 3⟩ 3) := by
  refine ⟨rfl, by decide, by decide⟩

/-- C4 (amended): `increment_for(s)` on `(round, node_id)` yields `(round+1, s)`
when `node_id` is strictly greater than `s` and `(round, s)` when `node_id ≤ s`;
`(5,7) ↦ (6,3)`, `(5,1) ↦ (5,3)`, `(5,3) ↦ (5,3)`; the result is never smaller
than the original ballot and is strictly greater exactly when `node_id ≠ s`. -/
theorem C4_increment_for_amended (b : Ballot) (s : Nat) :
    Ballot.increment_for b s
      = (if b.node > s then ⟨b.round + 1, s⟩ else ⟨b.round, s⟩) ∧
    Ballot.le b (Ballot.increment_for b s) ∧
    (b.node ≠ s → Ballot.lt b (Ballot.increment_for b s)) ∧
    Ballot.increment_for ⟨5, 7⟩ 3 = ⟨6, 3⟩ ∧
    Ballot.increment_for ⟨5, 1⟩ 3 = ⟨5, 3⟩ ∧
    Ballot.increment_for ⟨5, 3⟩ 3 = ⟨5, 3⟩ :=
  ⟨rfl, Ballot.le_increment_for b s,
   fun h => Ballot.lt_increment_for h, rfl, rfl, rfl⟩

/-- C4 witness: the amended theorem applied at ballot `(5,7)` and replica 3. -/
theorem C4_witness : Ballot.lt ⟨5, 7⟩ (Ballot.increment_for ⟨5, 7⟩ 3) :=
  (C4_increment_for_amended ⟨5, 7⟩ 3).2.2.1 (by decide)

/-- C7 counterexample: with `highest_promised = (2,2)`, a `Propose` under the
stale ballot `(1,0)` is answered by a `Nack` carrying `(1,0)` — the proposal's
own ballot — not the acceptor's `highest_promised` as the claim states. -/
theorem C7_counterexample :
    Ballot.lt ⟨1, 0⟩ tcChosen.highest_promised ∧
    handle_propose tcChosen 4 ⟨1, 0⟩ 0 (5 : Nat)
      = some (tcChosen, [Out.send 4 (Msg.nack ⟨1, 0⟩ 0)]) ∧
    (⟨1, 0⟩ : Ballot) ≠ tcChosen.highest_promised := by
  refine ⟨by decide, rfl, by decide⟩

/-- C7 (amended): a `Propose` whose ballot is below `highest_promised` is
answered by a `Nack` carrying the **rejected proposal's own ballot** (and its
slot), and the replica's state is left completely unchanged. -/
theorem C7_nack_stale_propose {V : Type} (s : PaxosServer V) (src : Nat)
    (id : Ballot) (inst : Nat) (v : V) (h : Ballot.lt id s.highest_promised) :
    handle_propose s src id inst v = some (s, [Out.send src (Msg.nack id inst)]) := by
  unfold handle_propose
  rw [if_pos h]

/-- C7 witness: the amended theorem at a concrete stale proposal. -/
theorem C7_witness :
    handle_propose tcChosen 4 ⟨1, 1⟩ 2 (9 : Nat)
      = some (tcChosen, [Out.send 4 (Msg.nack ⟨1, 1⟩ 2)]) :=
  C7_nack_stale_propose tcChosen 4 ⟨1, 1⟩ 2 9 (by decide)

/-- C1: evaluating `handle_promise` at the quorum-completing promise shows the
code broadcasts its **own** logged value 10 for the unchosen slot, ignoring the
promise payload `(0, (0,5), 99)` whose `accepted_ballot` is the highest
reported; and when the unchosen slot holds no value the handler panics
(`unwrap` on `None`, modelled as `none`) instead of skipping the slot. -/
theorem C1_repropose_run :
    (handle_promise tcPromise 5 ⟨1, 0⟩ [(0, ⟨0, 5⟩, (99 : Nat))]).map (fun r => r.2)
      = some [Out.broadcast (Msg.propose ⟨1, 0⟩ 0 10)] ∧
    handle_promise tcPromiseHole 5 ⟨1, 0⟩ [(0, ⟨0, 5⟩, (99 : Nat))] = none := by
  refine ⟨rfl, rfl⟩

/-- C2: evaluating the code at a leader with `quorum = 3` whose slot 0 already
counts its own acceptance: two `Accept`s with identical content — duplicates
from a single acceptor (the handler does not even receive the sender id) —
drive `acceptances` to 3 and trigger the `Learn` broadcast, so duplicates do
count more than once toward the quorum. -/
theorem C2_duplicate_accepts_run :
    ((handle_accept tcAccept ⟨1, 0⟩ 0).bind (fun r => handle_accept r.1 ⟨1, 0⟩ 0)).map
        (fun r => (r.2, (r.1.log.get? 0).map LogEntry.chosen))
      = some ([Out.broadcast (Msg.learn ⟨1, 0⟩ 0 (7 : Nat))], some true) := by
  rfl

/-- C8 counterexample: `handle_accept` with a matching ballot and an
out-of-range slot (`log` is empty) hits the unchecked index `self.log[instance]`
and panics (modelled as `none`) — the log is not grown and the reference is an
error, contrary to the claim. -/
theorem C8_counterexample :
    (⟨1, 1⟩ : Ballot) = tcEmptyLog.highest_promised ∧
    tcEmptyLog.log.length = 0 ∧
    handle_accept tcEmptyLog ⟨1, 1⟩ 0 = none := by
  refine ⟨rfl, rfl, rfl⟩

/-- C8 (amended): `handle_propose` and `handle_learn` first grow the log with
default entries until the referenced slot is in range and never fail — the
result log has length `max (slot+1) (old length)` and each newly created slot
below the referenced one is a default entry — but `handle_accept` does **not**
grow the log: with a matching ballot and a slot at or past the end of the log
it panics. -/
theorem C8_out_of_range_slots {V : Type} (s : PaxosServer V) (src : Nat)
    (id : Ballot) (inst : Nat) (v : V) (j : Nat) :
    (handle_propose s src id inst v).isSome = true ∧
    (¬ Ballot.lt id s.highest_promised →
      (handle_propose s src id inst v).map (fun r => r.1.log.length)
        = some (max (inst + 1) s.log.length)) ∧
    (¬ Ballot.lt id s.highest_promised → s.log.length ≤ j → j < inst →
      (handle_propose s src id inst v).map (fun r => r.1.log.get? j)
        = some (some LogEntry.new)) ∧
    (handle_learn s id inst v).isSome = true ∧
    ((handle_learn s id inst v).map (fun r => r.1.log.length)
        = some (max (inst + 1) s.log.length)) ∧
    (s.log.length ≤ j → j < inst →
      (handle_learn s id inst v).map (fun r => r.1.log.get? j)
        = some (some LogEntry.new)) ∧
    (id = s.highest_promised → s.log.length ≤ inst →
      handle_accept s id inst = none) := by
  refine ⟨?_, ?_, ?_, ?_, ?_, ?_, ?_⟩
  · unfold handle_propose
    split <;> rfl
  · intro h
    unfold handle_propose
    rw [if_neg h]
    simp [listModify_length, growTo_length]
  · intro h h1 h2
    unfold handle_propose
    rw [if_neg h]
    simp only [Option.map_some']
    rw [listModify_get?_ne _ _ (show j ≠ inst by omega),
        growTo_get?_ge s.log inst h1 (by omega)]
  · rfl
  · simp [handle_learn, listModify_length, growTo_length]
  · intro h1 h2
    simp only [handle_learn, Option.map_some']
    rw [listModify_get?_ne _ _ (show j ≠ inst by omega),
        growTo_get?_ge s.log inst h1 (by omega)]
  · intro hid hle
    unfold handle_accept
    rw [if_neg (not_not_intro hid), dif_neg (by omega)]

/-- C8 witness: the amended theorem at a concrete out-of-range `Propose`,
`Learn` and `Accept` on a replica with an empty log. -/
theorem C8_witness :
    ((handle_propose tcEmptyLog 3 ⟨1, 1⟩ 2 (9 : Nat)).isSome = true ∧
      (handle_propose tcEmptyLog 3 ⟨1, 1⟩ 2 (9 : Nat)).map (fun r => r.1.log.length)
        = some 3 ∧
      (handle_propose tcEmptyLog 3 ⟨1, 1⟩ 2 (9 : Nat)).map (fun r => r.1.log.get? 0)
        = some (some LogEntry.new)) ∧
    (handle_learn tcEmptyLog ⟨1, 1⟩ 2 (9 : Nat)).map (fun r => r.1.log.length)
      = some 3 ∧
    handle_accept tcEmptyLog ⟨1, 1⟩ 2 = none := by
  have h := C8_out_of_range_slots tcEmptyLog 3 ⟨1, 1⟩ 2 (9 : Nat) 0
  exact ⟨⟨h.1, h.2.1 (by decide), h.2.2.1 (by decide) (by decide) (by decide)⟩,
         h.2.2.2.2.1, h.2.2.2.2.2.2 (by decide) (by decide)⟩

/-- C9 counterexample: a non-leader replica with queue `[5]` relays a client
request successfully (`sendOk = true`), yet the queue still holds `[5]`
afterwards; `start_election` leaves the queue untouched as well — the queue is
never drained, contrary to the claim. -/
theorem C9_counterexample :
    tcRelay.node_id ≠ tcRelay.current_leader ∧
    tcRelay.client_cmd_queue = [5] ∧
    (handle_client_request tcRelay true (7 : Nat)).map
        (fun r => (r.1.client_cmd_queue, r.2))
      = some ([5], [Out.send 0 (Msg.clientRequest 7)]) ∧
    (start_election tcRelay).map (fun r => r.1.client_cmd_queue) = some [5] := by
  refine ⟨by decide, rfl, rfl, rfl⟩

/-- C9 (amended): a non-leader replica attempts to relay the command to
`current_leader`; if the transport reports failure the command is appended to
`client_cmd_queue`; the queue is **never drained** — a successful relay leaves
it unchanged and `start_election` does not touch it. -/
theorem C9_relay_queue {V : Type} (s : PaxosServer V) (v : V)
    (h : s.node_id ≠ s.current_leader) :
    handle_client_request s true v
      = some (s, [Out.send s.current_leader (Msg.clientRequest v)]) ∧
    handle_client_request s false v
      = some ({ s with client_cmd_queue := s.client_cmd_queue ++ [v] },
              [Out.send s.current_leader (Msg.clientRequest v)]) ∧
    (start_election s).map (fun r => r.1.client_cmd_queue)
      = some s.client_cmd_queue := by
  refine ⟨?_, ?_, rfl⟩
  · unfold handle_client_request
    rw [if_neg h]
    rfl
  · unfold handle_client_request
    rw [if_neg h]
    rfl

/-- C9 witness: the amended theorem at the concrete non-leader replica. -/
theorem C9_witness :
    handle_client_request tcRelay true (7 : Nat)
      = some (tcRelay, [Out.send tcRelay.current_leader (Msg.clientRequest 7)]) ∧
    handle_client_request tcRelay false (7 : Nat)
      = some ({ tcRelay with client_cmd_queue := tcRelay.client_cmd_queue ++ [7] },
              [Out.send tcRelay.current_leader (Msg.clientRequest 7)]) ∧
    (start_election tcRelay).map (fun r => r.1.client_cmd_queue)
      = some tcRelay.client_cmd_queue :=
  C9_relay_queue tcRelay 7 (by decide)

/-- C10: `handle_learn` applies every `Learn` unconditionally — for **every**
ballot `id` (including ones below `highest_promised` or below the slot's
current `accepted_id`; the universal quantification over `id` is the absence of
any ballot or staleness check) it grows the log to cover the slot, overwrites
the slot's `value`, sets `accepted_id := id` and `chosen := true`, sends
nothing, and leaves `highest_promised`, `current_leader`, the lease timer, the
promise set, the queue and every other slot unchanged. -/
theorem C10_handle_learn_unconditional {V : Type} (s : PaxosServer V) (id : Ballot)
    (inst : Nat) (v : V) (j : Nat) (hne : j ≠ inst) (hlt : j < s.log.length) :
    (handle_learn s id inst v).map (fun r => r.1.highest_promised)
      = some s.highest_promised ∧
    (handle_learn s id inst v).map (fun r => r.1.current_leader)
      = some s.current_leader ∧
    (handle_learn s id inst v).map (fun r => r.1.leader_lease_start)
      = some s.leader_lease_start ∧
    (handle_learn s id inst v).map (fun r => r.1.promises) = some s.promises ∧
    (handle_learn s id inst v).map (fun r => r.1.client_cmd_queue)
      = some s.client_cmd_queue ∧
    (handle_learn s id inst v).map (fun r => r.2) = some [] ∧
    (handle_learn s id inst v).map (fun r => r.1.log.length)
      = some (max (inst + 1) s.log.length) ∧
    (handle_learn s id inst v).map
        (fun r => (r.1.log.get? inst).map (fun e => (e.value, e.accepted_id, e.chosen)))
      = some (some (some v, id, true)) ∧
    (handle_learn s id inst v).map (fun r => r.1.log.get? j) = some (s.log.get? j) := by
  refine ⟨rfl, rfl, rfl, rfl, rfl, rfl, ?_, ?_, ?_⟩
  · simp [handle_learn, listModify_length, growTo_length]
  · have hlen : inst < (growTo s.log inst).length := by rw [growTo_length]; omega
    simp only [handle_learn, Option.map_some']
    rw [listModify_get?_self, List.get?_eq_get hlen]
    rfl
  · simp only [handle_learn, Option.map_some']
    rw [listModify_get?_ne _ _ hne, growTo_get?_lt _ _ hlt]

/-- C10 witness: a stale-ballot `Learn` on slot 2 of a populated replica,
checked to leave slot 0 untouched. -/
theorem C10_witness :
    (handle_learn tcAcceptor ⟨0, 0⟩ 2 (42 : Nat)).map (fun r => r.1.log.get? 0)
      = some (tcAcceptor.log.get? 0) :=
  (C10_handle_learn_unconditional tcAcceptor ⟨0, 0⟩ 2 42 0 (by decide)
    (by decide)).2.2.2.2.2.2.2.2

/-- C3 counterexample: slot 0 of `tcChosen` is chosen with value 1, yet
`handle_learn` under the stale ballot `(0,0)` with value 2 overwrites the
chosen value — the value is not fixed once `chosen` is true. -/
theorem C3_counterexample :
    (tcChosen.log.get? 0).map LogEntry.chosen = some true ∧
    (tcChosen.log.get? 0).map LogEntry.value = some (some 1) ∧
    (handle_learn tcChosen ⟨0, 0⟩ 0 2).map
        (fun r => (r.1.log.get? 0).map LogEntry.value)
      = some (some (some 2)) := by
  refine ⟨rfl, rfl, rfl⟩

theorem log_lookup_facts {V : Type} {l : List (LogEntry V)} {i : Nat}
    {e : LogEntry V} (he : l.get? i = some e) (hc : e.chosen = true) :
    (l.get? i).map LogEntry.chosen = some true ∧
    (l.get? i).map LogEntry.value = some e.value := by
  rw [he]
  exact ⟨by simp [LogEntry.chosen, hc], rfl⟩

/-- C3 (amended): once a slot's `chosen` flag is true it never becomes false
again under any handler; the slot's value is also preserved by every handler
**except** `handle_learn` and `handle_propose`, which overwrite it without a
staleness check (the counterexample). -/
theorem C3_chosen_monotone {V : Type} (s : PaxosServer V) (i : Nat)
    (e : LogEntry V) (he : s.log.get? i = some e) (hc : e.chosen = true) :
    (∀ now src id holes s' out, handle_prepare s now src id holes = some (s', out) →
      (s'.log.get? i).map LogEntry.chosen = some true ∧
      (s'.log.get? i).map LogEntry.value = some e.value) ∧
    (∀ now id acc s' out, handle_promise s now id acc = some (s', out) →
      (s'.log.get? i).map LogEntry.chosen = some true ∧
      (s'.log.get? i).map LogEntry.value = some e.value) ∧
    (∀ src id inst v s' out, handle_propose s src id inst v = some (s', out) →
      (s'.log.get? i).map LogEntry.chosen = some true) ∧
    (∀ id inst s' out, handle_accept s id inst = some (s', out) →
      (s'.log.get? i).map LogEntry.chosen = some true ∧
      (s'.log.get? i).map LogEntry.value = some e.value) ∧
    (∀ id inst v s' out, handle_learn s id inst v = some (s', out) →
      (s'.log.get? i).map LogEntry.chosen = some true) ∧
    (∀ id inst s' out, handle_nack s id inst = some (s', out) →
      (s'.log.get? i).map LogEntry.chosen = some true ∧
      (s'.log.get? i).map LogEntry.value = some e.value) ∧
    (∀ ok v s' out, handle_client_request s ok v = some (s', out) →
      (s'.log.get? i).map LogEntry.chosen = some true ∧
      (s'.log.get? i).map LogEntry.value = some e.value) ∧
    (∀ s' out, start_election s = some (s', out) →
      (s'.log.get? i).map LogEntry.chosen = some true ∧
      (s'.log.get? i).map LogEntry.value = some e.value) := by
  have hi : i < s.log.length := by
    by_contra hn
    rw [List.get?_eq_none.mpr (Nat.le_of_not_lt hn)] at he
    cases he
  refine ⟨?_, ?_, ?_, ?_, ?_, ?_, ?_, ?_⟩
  · intro now src id holes s' out h
    simp only [handle_prepare] at h
    split at h
    · obtain ⟨h1, -⟩ := Prod.mk.injEq .. ▸ Option.some.injEq .. ▸ h
      subst h1; exact log_lookup_facts he hc
    · split at h
      · obtain ⟨h1, -⟩ := Prod.mk.injEq .. ▸ Option.some.injEq .. ▸ h
        subst h1; exact log_lookup_facts he hc
      · split at h
        · split at h
          · obtain ⟨h1, -⟩ := Prod.mk.injEq .. ▸ Option.some.injEq .. ▸ h
            subst h1; exact log_lookup_facts he hc
          · exact Option.noConfusion h
        · obtain ⟨h1, -⟩ := Prod.mk.injEq .. ▸ Option.some.injEq .. ▸ h
          subst h1; exact log_lookup_facts he hc
  · intro now id acc s' out h
    simp only [handle_promise] at h
    split at h
    · obtain ⟨h1, -⟩ := Prod.mk.injEq .. ▸ Option.some.injEq .. ▸ h
      subst h1; exact log_lookup_facts he hc
    · split at h
      · split at h
        · exact Option.noConfusion h
        · obtain ⟨h1, -⟩ := Prod.mk.injEq .. ▸ Option.some.injEq .. ▸ h
          subst h1; exact log_lookup_facts he hc
      · obtain ⟨h1, -⟩ := Prod.mk.injEq .. ▸ Option.some.injEq .. ▸ h
        subst h1; exact log_lookup_facts he hc
  · intro src id inst v s' out h
    simp only [handle_propose] at h
    split at h
    · obtain ⟨h1, -⟩ := Prod.mk.injEq .. ▸ Option.some.injEq .. ▸ h
      subst h1; exact (log_lookup_facts he hc).1
    · obtain ⟨h1, -⟩ := Prod.mk.injEq .. ▸ Option.some.injEq .. ▸ h
      subst h1
      show ((listModify _ inst (growTo s.log inst)).get? i).map LogEntry.chosen
        = some true
      by_cases hii : i = inst
      · subst hii
        rw [listModify_get?_self, growTo_get?_lt _ _ hi, he]
        simp [LogEntry.chosen, hc]
      · rw [listModify_get?_ne _ _ hii, growTo_get?_lt _ _ hi, he]
        simp [LogEntry.chosen, hc]
  · intro id inst s' out h
    simp only [handle_accept] at h
    split at h
    · obtain ⟨h1, -⟩ := Prod.mk.injEq .. ▸ Option.some.injEq .. ▸ h
      subst h1; exact log_lookup_facts he hc
    · split at h
      · split at h
        · split at h
          · exact Option.noConfusion h
          · obtain ⟨h1, -⟩ := Prod.mk.injEq .. ▸ Option.some.injEq .. ▸ h
            subst h1
            show (((listModify _ inst (listModify _ inst s.log)).get? i).map
              LogEntry.chosen = some true) ∧
              ((listModify _ inst (listModify _ inst s.log)).get? i).map
                LogEntry.value = some e.value
            by_cases hii : i = inst
            · subst hii
              rw [listModify_get?_self, listModify_get?_self, he]
              exact ⟨rfl, rfl⟩
            · rw [listModify_get?_ne _ _ hii, listModify_get?_ne _ _ hii, he]
              exact ⟨by simp [LogEntry.chosen, hc], rfl⟩
        · obtain ⟨h1, -⟩ := Prod.mk.injEq .. ▸ Option.some.injEq .. ▸ h
          subst h1
          show (((listModify _ inst s.log).get? i).map LogEntry.chosen = some true) ∧
            ((listModify _ inst s.log).get? i).map LogEntry.value = some e.value
          by_cases hii : i = inst
          · subst hii
            rw [listModify_get?_self, he]
            exact ⟨by simp [LogEntry.chosen, hc], rfl⟩
          · rw [listModify_get?_ne _ _ hii, he]
            exact ⟨by simp [LogEntry.chosen, hc], rfl⟩
      · exact Option.noConfusion h
  · intro id inst v s' out h
    simp only [handle_learn] at h
    obtain ⟨h1, -⟩ := Prod.mk.injEq .. ▸ Option.some.injEq .. ▸ h
    subst h1
    show ((listModify _ inst (growTo s.log inst)).get? i).map LogEntry.chosen
      = some true
    by_cases hii : i = inst
    · subst hii
      rw [listModify_get?_self, growTo_get?_lt _ _ hi, he]
      rfl
    · rw [listModify_get?_ne _ _ hii, growTo_get?_lt _ _ hi, he]
      simp [LogEntry.chosen, hc]
  · intro id inst s' out h
    obtain ⟨h1, -⟩ := Prod.mk.injEq .. ▸ Option.some.injEq .. ▸ h
    subst h1; exact log_lookup_facts he hc
  · intro ok v s' out h
    simp only [handle_client_request] at h
    split at h
    · obtain ⟨h1, -⟩ := Prod.mk.injEq .. ▸ Option.some.injEq .. ▸ h
      subst h1
      show (((s.log ++ [LogEntry.new_with_value v]).get? i).map LogEntry.chosen
        = some true) ∧
        ((s.log ++ [LogEntry.new_with_value v]).get? i).map LogEntry.value
          = some e.value
      rw [List.get?_append hi, he]
      exact ⟨by simp [LogEntry.chosen, hc], rfl⟩
    · split at h
      · obtain ⟨h1, -⟩ := Prod.mk.injEq .. ▸ Option.some.injEq .. ▸ h
        subst h1; exact log_lookup_facts he hc
      · obtain ⟨h1, -⟩ := Prod.mk.injEq .. ▸ Option.some.injEq .. ▸ h
        subst h1; exact log_lookup_facts he hc
  · intro s' out h
    simp only [start_election] at h
    obtain ⟨h1, -⟩ := Prod.mk.injEq .. ▸ Option.some.injEq .. ▸ h
    subst h1; exact log_lookup_facts he hc

/-- C3 witness: the amended theorem applied to `tcChosen` and a `Nack`. -/
theorem C3_witness :
    (tcChosen.log.get? 0).map LogEntry.chosen = some true ∧
    (tcChosen.log.get? 0).map LogEntry.value = some (some 1) :=
  (C3_chosen_monotone tcChosen 0 _ rfl rfl).2.2.2.2.2.1 ⟨0, 0⟩ 0 tcChosen [] rfl

/-- C5: `highest_promised` is non-decreasing (in the lexicographic ballot
order) across every message handler and `start_election`: whenever a handler
returns normally, the new `highest_promised` is at least the old one. -/
theorem C5_highest_promised_monotone {V : Type} (s : PaxosServer V) :
    (∀ now src id holes s' out, handle_prepare s now src id holes = some (s', out) →
      Ballot.le s.highest_promised s'.highest_promised) ∧
    (∀ now id acc s' out, handle_promise s now id acc = some (s', out) →
      Ballot.le s.highest_promised s'.highest_promised) ∧
    (∀ src id inst v s' out, handle_propose s src id inst v = some (s', out) →
      Ballot.le s.highest_promised s'.highest_promised) ∧
    (∀ id inst s' out, handle_accept s id inst = some (s', out) →
      Ballot.le s.highest_promised s'.highest_promised) ∧
    (∀ id inst v s' out, handle_learn s id inst v = some (s', out) →
      Ballot.le s.highest_promised s'.highest_promised) ∧
    (∀ id inst s' out, handle_nack s id inst = some (s', out) →
      Ballot.le s.highest_promised s'.highest_promised) ∧
    (∀ ok v s' out, handle_client_request s ok v = some (s', out) →
      Ballot.le s.highest_promised s'.highest_promised) ∧
    (∀ s' out, start_election s = some (s', out) →
      Ballot.le s.highest_promised s'.highest_promised) := by
  refine ⟨?_, ?_, ?_, ?_, ?_, ?_, ?_, ?_⟩
  · intro now src id holes s' out h
    simp only [handle_prepare] at h
    split at h
    · obtain ⟨h1, -⟩ := Prod.mk.injEq .. ▸ Option.some.injEq .. ▸ h
      subst h1; exact Ballot.le_refl _
    · split at h
      · obtain ⟨h1, -⟩ := Prod.mk.injEq .. ▸ Option.some.injEq .. ▸ h
        subst h1; exact Ballot.le_refl _
      · next hnl _ =>
        split at h
        · split at h
          · obtain ⟨h1, -⟩ := Prod.mk.injEq .. ▸ Option.some.injEq .. ▸ h
            subst h1; exact Ballot.le_of_not_lt hnl
          · exact Option.noConfusion h
        · obtain ⟨h1, -⟩ := Prod.mk.injEq .. ▸ Option.some.injEq .. ▸ h
          subst h1; exact Ballot.le_of_not_lt hnl
  · intro now id acc s' out h
    simp only [handle_promise] at h
    split at h
    · obtain ⟨h1, -⟩ := Prod.mk.injEq .. ▸ Option.some.injEq .. ▸ h
      subst h1; exact Ballot.le_refl _
    · split at h
      · split at h
        · exact Option.noConfusion h
        · obtain ⟨h1, -⟩ := Prod.mk.injEq .. ▸ Option.some.injEq .. ▸ h
          subst h1; exact Ballot.le_refl _
      · obtain ⟨h1, -⟩ := Prod.mk.injEq .. ▸ Option.some.injEq .. ▸ h
        subst h1; exact Ballot.le_refl _
  · intro src id inst v s' out h
    simp only [handle_propose] at h
    split at h
    · obtain ⟨h1, -⟩ := Prod.mk.injEq .. ▸ Option.some.injEq .. ▸ h
      subst h1; exact Ballot.le_refl _
    · obtain ⟨h1, -⟩ := Prod.mk.injEq .. ▸ Option.some.injEq .. ▸ h
      subst h1; exact Ballot.le_refl _
  · intro id inst s' out h
    simp only [handle_accept] at h
    split at h
    · obtain ⟨h1, -⟩ := Prod.mk.injEq .. ▸ Option.some.injEq .. ▸ h
      subst h1; exact Ballot.le_refl _
    · split at h
      · split at h
        · split at h
          · exact Option.noConfusion h
          · obtain ⟨h1, -⟩ := Prod.mk.injEq .. ▸ Option.some.injEq .. ▸ h
            subst h1; exact Ballot.le_refl _
        · obtain ⟨h1, -⟩ := Prod.mk.injEq .. ▸ Option.some.injEq .. ▸ h
          subst h1; exact Ballot.le_refl _
      · exact Option.noConfusion h
  · intro id inst v s' out h
    obtain ⟨h1, -⟩ := Prod.mk.injEq .. ▸ Option.some.injEq .. ▸ h
    subst h1; exact Ballot.le_refl _
  · intro id inst s' out h
    obtain ⟨h1, -⟩ := Prod.mk.injEq .. ▸ Option.some.injEq .. ▸ h
    subst h1; exact Ballot.le_refl _
  · intro ok v s' out h
    simp only [handle_client_request] at h
    split at h
    · obtain ⟨h1, -⟩ := Prod.mk.injEq .. ▸ Option.some.injEq .. ▸ h
      subst h1; exact Ballot.le_refl _
    · split at h
      · obtain ⟨h1, -⟩ := Prod.mk.injEq .. ▸ Option.some.injEq .. ▸ h
        subst h1; exact Ballot.le_refl _
      · obtain ⟨h1, -⟩ := Prod.mk.injEq .. ▸ Option.some.injEq .. ▸ h
        subst h1; exact Ballot.le_refl _
  · intro s' out h
    simp only [start_election] at h
    obtain ⟨h1, -⟩ := Prod.mk.injEq .. ▸ Option.some.injEq .. ▸ h
    subst h1; exact Ballot.le_increment_for _ _

/-- C5 witness: the monotonicity theorem applied to a concrete `handle_prepare`
run that raises `highest_promised` from `(1,1)` to `(2,1)`. -/
theorem C5_witness :
    Ballot.le tcAcceptor.highest_promised (⟨2, 1⟩ : Ballot) :=
  (C5_highest_promised_monotone tcAcceptor).1 10 1 ⟨2, 1⟩ [1, 2, 4]
    { tcAcceptor with highest_promised := ⟨2, 1⟩, current_leader := 1,
                      leader_lease_start := 10 }
    [Out.send 1 (Msg.promise ⟨2, 1⟩ [(2, ⟨1, 1⟩, 6)])] rfl

/-- C6: a `Prepare` with ballot not below `highest_promised`, arriving when the
lease has expired or from the current leader, with `holes` a nonempty strictly
ascending list (its last element the terminal sentinel), makes the acceptor
set `highest_promised` to the ballot, adopt the sender as leader, restart the
lease timer, and reply to the sender with a `Promise` carrying exactly the
accepted `(slot, accepted_ballot, value)` triples whose slot is a member of
`holes` or at least the sentinel. -/
theorem C6_handle_prepare_promise {V : Type} (s : PaxosServer V) (now src : Nat)
    (id : Ballot) (holes : List Nat) (hne : holes ≠ [])
    (hid : ¬ Ballot.lt id s.highest_promised)
    (hlease : LEASE_DURATION ≤ now - s.leader_lease_start ∨ src = s.current_leader)
    (hsort : List.Sorted (· < ·) holes) :
    handle_prepare s now src id holes
      = some ({ s with highest_promised := id, current_leader := src,
                       leader_lease_start := now },
              [Out.send src (Msg.promise id
                ((get_accepted_values s.log).filter
                  (fun t => decide (t.1 ∈ holes)
                    || decide (holes.getLast hne ≤ t.1))))]) := by
  unfold handle_prepare
  rw [if_neg hid, if_neg (by omega), List.getLast?_eq_getLast _ hne]
  simp only [Option.some.injEq, Prod.mk.injEq, List.cons.injEq, and_true,
             Out.send.injEq, Msg.promise.injEq, true_and]
  apply flatMap_replicate_eq_filter
  intro t ht
  have hT : ∀ x ∈ holes, x < holes.getLast hne + 1 :=
    fun x hx => Nat.lt_succ_of_le (sorted_le_getLast hsort hne hx)
  rw [chainPushCount_sorted hsort hT t.1]
  by_cases hA : t.1 ∈ holes ∨ holes.getLast hne + 1 ≤ t.1
  · rw [if_pos hA, if_pos]
    rcases hA with hA | hA
    · simp [hA]
    · simp [Nat.le_of_succ_le hA]
  · rw [if_neg hA, if_neg]
    push_neg at hA
    intro hB
    rcases Bool.or_eq_true .. ▸ hB with hB | hB
    · exact absurd (of_decide_eq_true hB) hA.1
    · have hle := of_decide_eq_true hB
      have : t.1 = holes.getLast hne := by omega
      exact absurd (this ▸ List.getLast_mem hne) hA.1

/-- C6 witness: a concrete `Prepare` on `tcAcceptor` with holes `[1, 2, 4]`. -/
theorem C6_witness :
    handle_prepare tcAcceptor 10 1 ⟨2, 1⟩ [1, 2, 4]
      = some ({ tcAcceptor with highest_promised := ⟨2, 1⟩, current_leader := 1,
                                leader_lease_start := 10 },
              [Out.send 1 (Msg.promise ⟨2, 1⟩
                ((get_accepted_values tcAcceptor.log).filter
                  (fun t => decide (t.1 ∈ [1, 2, 4])
                    || decide (List.getLast [1, 2, 4] (by decide) ≤ t.1))))]) :=
  C6_handle_prepare_promise tcAcceptor 10 1 ⟨2, 1⟩ [1, 2, 4]
    (by decide) (by decide) (by left; decide) (by decide)
